import Mathlib

/-!
Verification of the pybondi repository coordinator (src/pybondi/repository.py).

The source defines an abstract class Repository holding an identity map
self.aggregates : dict[str, Aggregate].  Its methods are

  add(aggregate):   self.aggregates[aggregate.root.id] = aggregate
  commit():         for aggregate in self.aggregates.values(): self.store(aggregate)
  rollback():       for aggregate in self.aggregates.values(): self.restore(aggregate)

store and restore are abstract extension points supplied by a storage adapter.

Embedding choices, faithful to Python semantics:
  - Aggregate instances are heap references (Ref := Nat); a Heap assigns each
    reference its current Aggregate value (root.id and an observable state).
    This lets us model in-place mutation of aggregates (restore mutates the
    aggregate, and a caller may mutate root.id after add) without touching
    the identity map, exactly as in Python.
  - The dict is an insertion-ordered association list with the Python dict
    update rule: assigning to a present key replaces the value in place
    (keeping the position), assigning to an absent key appends.  values()
    iterates in insertion order.
  - commit and rollback are folds over the entry list.  They additionally
    record the sequence of adapter invocations (the ghost trace), so that
    exactly-once-per-entry claims are provable rather than definitional.
  - A raising store or restore is modelled with Except: the fold stops at
    the first error, which is how an uncaught Python exception leaves the
    for loop.
  - The abstract store and restore themselves are not source code; where a
    claim needs their behaviour, a snapshot adapter is modelled from the
    spec (section 4.1 and 7 contracts) and is marked as such.
-/

/-- Object identity of a Python aggregate instance. -/
abbrev Ref := Nat

/-- The root object of an aggregate, carrying the unique identifier
(aggregate.root.id in the source). -/
structure Root where
  id : String
deriving DecidableEq

/-- The observable part of an aggregate: its root and its mutable
domain state. -/
structure Aggregate where
  root : Root
  state : Int
deriving DecidableEq

/-- The Python heap: the Aggregate value currently held by each reference. -/
abbrev Heap := Ref → Aggregate

/-- Python dict assignment d[k] = v on an insertion-ordered association
list: if the key is present its value is replaced in place (the entry keeps
its position), otherwise the new entry is appended at the end. -/
def dictSet {α : Type} (m : List (String × α)) (k : String) (v : α) :
    List (String × α) :=
  if m.any (fun p => p.1 = k) then
    m.map (fun p => if p.1 = k then (k, v) else p)
  else m ++ [(k, v)]

/-- Lookup of a key in an association list (first entry wins; the maps we
build never hold a duplicate key). -/
def lookupKey {α : Type} : List (String × α) → String → Option α
  | [], _ => none
  | p :: rest, k => if p.1 = k then some p.2 else lookupKey rest k

/-- The coordinator state: the identity map self.aggregates, a dict from
identifier to aggregate reference. -/
structure Repository where
  aggregates : List (String × Ref)
deriving DecidableEq

/-- Repository.__init__: the identity map starts empty. -/
def Repository.init : Repository := ⟨[]⟩

/-- Repository.add: self.aggregates[aggregate.root.id] = aggregate.  The key
is aggregate.root.id read from the heap at call time. -/
def Repository.add (h : Heap) (repo : Repository) (r : Ref) : Repository :=
  ⟨dictSet repo.aggregates ((h r).root.id) r⟩

/-- self.aggregates.values(), in insertion order. -/
def Repository.values (repo : Repository) : List Ref :=
  repo.aggregates.map Prod.snd

/-- The keys of the identity map, in insertion order. -/
def Repository.keys (repo : Repository) : List String :=
  repo.aggregates.map Prod.fst

/-- len(self.aggregates). -/
def Repository.size (repo : Repository) : Nat :=
  repo.aggregates.length

/-- Repository.commit: for aggregate in self.aggregates.values():
self.store(aggregate).  The adapter is an abstract state transformer
store : sigma -> Ref -> sigma.  The result carries the coordinator state,
the final adapter state, and the ghost trace of store invocations. -/
def Repository.commit {σ : Type} (store : σ → Ref → σ) (repo : Repository)
    (s : σ) : Repository × σ × List Ref :=
  repo.aggregates.foldl
    (fun acc p => (acc.1, store acc.2.1 p.2, acc.2.2 ++ [p.2]))
    (repo, s, [])

/-- Repository.rollback: for aggregate in self.aggregates.values():
self.restore(aggregate).  restore may mutate aggregates in place, so the
abstract adapter also transforms the heap.  The result carries the
coordinator state, the adapter state, the heap, and the ghost trace of
restore invocations. -/
def Repository.rollback {σ : Type} (restore : σ → Heap → Ref → σ × Heap)
    (repo : Repository) (s : σ) (h : Heap) :
    Repository × σ × Heap × List Ref :=
  repo.aggregates.foldl
    (fun acc p =>
      let res := restore acc.2.1 acc.2.2.1 p.2
      (acc.1, res.1, res.2, acc.2.2.2 ++ [p.2]))
    (repo, s, h, [])

/-- The batch loop under a raising adapter: an uncaught exception from the
adapter leaves the Python for loop at once, so the fold stops at the first
error. -/
def runBatchE {σ ε : Type} (act : σ → Ref → Except ε σ) :
    List Ref → σ → Except ε σ
  | [], s => Except.ok s
  | r :: rest, s =>
    match act s r with
    | Except.error e => Except.error e
    | Except.ok s2 => runBatchE act rest s2

/-- Repository.commit when store may raise. -/
def Repository.commitE {σ ε : Type} (store : σ → Ref → Except ε σ)
    (repo : Repository) (s : σ) : Except ε σ :=
  runBatchE store repo.values s

/-- Repository.rollback when restore may raise; restore transforms the heap
in place. -/
def Repository.rollbackE {ε : Type} (restore : Heap → Ref → Except ε Heap)
    (repo : Repository) (h : Heap) : Except ε Heap :=
  runBatchE restore repo.values h

/-- The error taxonomy of the spec that the modelled adapter can signal. -/
inductive AdapterError : Type
  | notFound
deriving DecidableEq

/-- Durable storage of the snapshot adapter: identifier to stored snapshot. -/
abbrev Storage := List (String × Aggregate)

/-- Storage with no prior store calls. -/
def emptyStorage : Storage := []

/-- Modelled from the spec: store is abstract in the source; per the
section 4.1 contract it durably persists the full current state of the
given aggregate, keyed by its identifier, such that a later restore on the
same identifier reproduces it. -/
def storeSnap (h : Heap) (st : Storage) (r : Ref) : Storage :=
  dictSet st ((h r).root.id) (h r)

/-- Modelled from the spec: restore is abstract in the source; per the
section 4.1 and 7 contracts it mutates the given aggregate instance in
place to its last durably stored state, and signals NotFoundError when no
prior stored state exists for the identifier of the aggregate. -/
def restoreSnap (st : Storage) (h : Heap) (r : Ref) :
    Except AdapterError Heap :=
  match lookupKey st ((h r).root.id) with
  | none => Except.error AdapterError.notFound
  | some a => Except.ok (Function.update h r a)

/-- commit under the snapshot adapter: the storage after storing every
tracked aggregate. -/
def Repository.commitS (h : Heap) (repo : Repository) (st : Storage) :
    Storage :=
  (Repository.commit (storeSnap h) repo st).2.1

/-- One commit or rollback call in a session. -/
inductive CROp : Type
  | commit
  | rollback

/-- Running a sequence of commit and rollback calls against one coordinator
with an abstract adapter. -/
def runOps {σ : Type} (store : σ → Ref → σ)
    (restore : σ → Heap → Ref → σ × Heap) :
    List CROp → Repository × σ × Heap → Repository × σ × Heap
  | [], st => st
  | CROp.commit :: ops, st =>
    runOps store restore ops
      ((Repository.commit store st.1 st.2.1).1,
       (Repository.commit store st.1 st.2.1).2.1, st.2.2)
  | CROp.rollback :: ops, st =>
    runOps store restore ops
      ((Repository.rollback restore st.1 st.2.1 st.2.2).1,
       (Repository.rollback restore st.1 st.2.1 st.2.2).2.1,
       (Repository.rollback restore st.1 st.2.1 st.2.2).2.2.1)

/-- The key of the most recently added aggregate wins: the last reference
in the sequence whose key matches, if any. -/
def lastMatch (key : Ref → String) (l : List Ref) (k : String) : Option Ref :=
  l.foldl (fun acc r => if key r = k then some r else acc) none

/-- Insertion of a key into an ordered key list, Python dict style: a
present key keeps its original position, an absent key goes to the end. -/
def addKey (acc : List String) (k : String) : List String :=
  if k ∈ acc then acc else acc ++ [k]

/-- The distinct identifiers of a sequence, in order of first appearance:
the iteration order of a Python dict built from the sequence. -/
def firstOccs (ks : List String) : List String :=
  ks.foldl addKey []

/-! Concrete fixtures used by counterexamples and witnesses. -/

/-- A heap whose single relevant aggregate has identifier x and state 5. -/
def hX : Heap := fun _ => ⟨⟨"x"⟩, 5⟩

/-- A heap with aggregate 0 under identifier a and aggregate 1 under
identifier b. -/
def hAB : Heap := fun r => if r = 0 then ⟨⟨"a"⟩, 1⟩ else ⟨⟨"b"⟩, 2⟩

/-- A coordinator tracking aggregate 0 under key a and aggregate 1 under
key b. -/
def repoAB : Repository := ⟨[("a", 0), ("b", 1)]⟩

/-- A heap whose aggregates all carry an empty identifier. -/
def hEmptyId : Heap := fun _ => ⟨⟨""⟩, 0⟩

/-- A store adapter that records every invocation in its state and raises
on aggregate 0; the error payload is the invocation log up to and
including the failing call. -/
def failingStore (s : List Ref) (r : Ref) : Except (List Ref) (List Ref) :=
  if r = 0 then Except.error (s ++ [r]) else Except.ok (s ++ [r])

/-- A restore adapter that raises on aggregate 0 and otherwise leaves the
heap unchanged. -/
def failingRestore (h : Heap) (r : Ref) : Except (List Ref) Heap :=
  if r = 0 then Except.error [r] else Except.ok h

/-- The heap before the caller mutates anything: aggregate 0 has
identifier x and state 5, aggregate 1 has identifier y and state 7. -/
def hA : Heap := fun r => if r = 0 then ⟨⟨"x"⟩, 5⟩ else ⟨⟨"y"⟩, 7⟩

/-- The heap after the caller mutates root.id of aggregate 0 from x to y,
keeping its state 5. -/
def hMut : Heap := Function.update hA 0 ⟨⟨"y"⟩, 5⟩

/-- A reachable coordinator state holding two aggregates whose current
identifiers collide: aggregate 0 was added while its identifier was x,
the caller then renamed it to y, and aggregate 1 (identifier y) was added
afterwards. -/
def repoXY : Repository :=
  Repository.add hMut (Repository.add hA Repository.init 0) 1

/-! Helper lemmas on the association-list dict. -/

lemma lookupKey_eq_none_of_not_mem {α : Type} (m : List (String × α))
    (k : String) (hk : k ∉ m.map Prod.fst) : lookupKey m k = none := by
  induction m with
  | nil => rfl
  | cons p rest ih =>
    simp only [List.map_cons, List.mem_cons] at hk
    push_neg at hk
    have hp : p.1 ≠ k := fun h => hk.1 h.symm
    simp [lookupKey, hp, ih hk.2]

lemma any_keys {α : Type} (m : List (String × α)) (k : String) :
    m.any (fun p => p.1 = k) = true ↔ k ∈ m.map Prod.fst := by
  simp [List.any_eq_true, List.mem_map]

lemma lookupKey_append {α : Type} (m l : List (String × α)) (k : String) :
    lookupKey (m ++ l) k =
      (lookupKey m k).elim (lookupKey l k) some := by
  induction m with
  | nil => simp [lookupKey]
  | cons p rest ih =>
    by_cases hp : p.1 = k
    · simp [lookupKey, hp]
    · simp [lookupKey, hp, ih]

lemma lookupKey_map_replace_self {α : Type} (m : List (String × α))
    (k : String) (v : α) (hany : m.any (fun p => p.1 = k) = true) :
    lookupKey (m.map (fun p => if p.1 = k then (k, v) else p)) k = some v := by
  induction m with
  | nil => simp at hany
  | cons p rest ih =>
    by_cases hp : p.1 = k
    · simp [lookupKey, hp]
    · simp only [List.any_cons, Bool.or_eq_true, decide_eq_true_eq] at hany
      rcases hany with h | h
      · exact absurd h hp
      · simp [lookupKey, hp, ih h]

lemma lookupKey_map_replace_ne {α : Type} (m : List (String × α))
    (k k' : String) (v : α) (hne : k ≠ k') :
    lookupKey (m.map (fun p => if p.1 = k then (k, v) else p)) k'
      = lookupKey m k' := by
  induction m with
  | nil => rfl
  | cons p rest ih =>
    by_cases hp : p.1 = k
    · simp [lookupKey, hp, hne, fun h : p.1 = k' => hne (hp ▸ h), ih]
    · by_cases hp' : p.1 = k'
      · have h2 : ¬k' = k := fun h => hne h.symm
        simp [lookupKey, hp, hp', h2]
      · simp [lookupKey, hp, hp', ih]

lemma lookupKey_dictSet {α : Type} (m : List (String × α)) (k k' : String)
    (v : α) :
    lookupKey (dictSet m k v) k'
      = if k = k' then some v else lookupKey m k' := by
  unfold dictSet
  by_cases hany : m.any (fun p => p.1 = k) = true
  · by_cases hk : k = k'
    · subst hk
      simp [hany, lookupKey_map_replace_self m k v hany]
    · simp [hany, hk, lookupKey_map_replace_ne m k k' v hk]
  · simp only [hany, if_false, Bool.false_eq_true]
    rw [lookupKey_append]
    by_cases hk : k = k'
    · subst hk
      have hnone : lookupKey m k = none := by
        apply lookupKey_eq_none_of_not_mem
        intro hmem
        exact hany ((any_keys m k).mpr hmem)
      simp [hnone, lookupKey]
    · have : lookupKey [(k, v)] k' = none := by simp [lookupKey, hk]
      rw [this]
      cases h : lookupKey m k' <;> simp [hk]

lemma map_fst_replace {α : Type} (m : List (String × α)) (k : String) (v : α) :
    (m.map (fun p => if p.1 = k then (k, v) else p)).map Prod.fst
      = m.map Prod.fst := by
  induction m with
  | nil => rfl
  | cons p rest ih =>
    by_cases hp : p.1 = k
    · simp [hp, ih]
    · simp [hp, ih]

lemma keys_dictSet {α : Type} (m : List (String × α)) (k : String) (v : α) :
    (dictSet m k v).map Prod.fst = addKey (m.map Prod.fst) k := by
  unfold dictSet addKey
  by_cases hany : m.any (fun p => p.1 = k) = true
  · have hmem : k ∈ m.map Prod.fst := (any_keys m k).mp hany
    rw [if_pos hany, map_fst_replace, if_pos hmem]
  · have hmem : k ∉ m.map Prod.fst := fun h => hany ((any_keys m k).mpr h)
    rw [if_neg hany, List.map_append, if_neg hmem]
    rfl

lemma mem_dictSet {α : Type} (m : List (String × α)) (k : String) (v : α)
    (p : String × α) (hp : p ∈ dictSet m k v) : p = (k, v) ∨ p ∈ m := by
  unfold dictSet at hp
  by_cases hany : m.any (fun p => p.1 = k) = true
  · simp only [hany, if_true] at hp
    obtain ⟨q, hq, he⟩ := List.mem_map.mp hp
    by_cases hqk : q.1 = k
    · left; rw [← he]; simp [hqk]
    · right; rw [← he]; simpa [hqk] using hq
  · simp only [hany, if_false, Bool.false_eq_true, List.mem_append,
      List.mem_singleton] at hp
    rcases hp with h | h
    · right; exact h
    · left; exact h

/-! Helper lemmas on key insertion order and last-write-wins. -/

lemma mem_addKey (acc : List String) (k x : String) :
    x ∈ addKey acc k ↔ x ∈ acc ∨ x = k := by
  unfold addKey
  by_cases hk : k ∈ acc
  · simp only [hk, if_true]
    constructor
    · exact Or.inl
    · rintro (h | h)
      · exact h
      · exact h ▸ hk
  · simp [hk]

lemma addKey_nodup (acc : List String) (k : String) (hacc : acc.Nodup) :
    (addKey acc k).Nodup := by
  unfold addKey
  by_cases hk : k ∈ acc
  · simp [hk, hacc]
  · simp [hk, List.nodup_append, hacc]

lemma foldl_addKey_nodup (ks : List String) (acc : List String)
    (hacc : acc.Nodup) : (ks.foldl addKey acc).Nodup := by
  induction ks generalizing acc with
  | nil => exact hacc
  | cons k rest ih => exact ih _ (addKey_nodup acc k hacc)

lemma mem_foldl_addKey (ks : List String) (acc : List String) (x : String) :
    x ∈ ks.foldl addKey acc ↔ x ∈ acc ∨ x ∈ ks := by
  induction ks generalizing acc with
  | nil => simp
  | cons k rest ih =>
    rw [List.foldl_cons, ih, mem_addKey]
    simp [or_assoc, List.mem_cons]

lemma foldl_lastMatch_acc (key : Ref → String) (k : String) (l : List Ref)
    (acc : Option Ref) :
    l.foldl (fun acc r => if key r = k then some r else acc) acc
      = (lastMatch key l k).elim acc some := by
  induction l generalizing acc with
  | nil => rfl
  | cons r rest ih =>
    rw [List.foldl_cons, ih]
    conv_rhs => rw [lastMatch, List.foldl_cons, ih]
    cases hm : lastMatch key rest k with
    | some a => simp
    | none =>
      by_cases hk : key r = k <;> simp [hk]

lemma lastMatch_cons (key : Ref → String) (k : String) (r : Ref)
    (rest : List Ref) :
    lastMatch key (r :: rest) k
      = (lastMatch key rest k).elim (if key r = k then some r else none) some := by
  rw [lastMatch, List.foldl_cons, foldl_lastMatch_acc]

lemma lastMatch_mem (key : Ref → String) (l : List Ref) (k : String) (a : Ref)
    (h : lastMatch key l k = some a) : a ∈ l ∧ key a = k := by
  induction l with
  | nil => simp [lastMatch] at h
  | cons r rest ih =>
    rw [lastMatch_cons] at h
    cases hm : lastMatch key rest k with
    | some b =>
      rw [hm] at h
      simp at h
      subst h
      obtain ⟨hb, hk⟩ := ih hm
      exact ⟨List.mem_cons_of_mem r hb, hk⟩
    | none =>
      rw [hm] at h
      by_cases hk : key r = k
      · simp [hk] at h
        subst h
        exact ⟨List.mem_cons_self r rest, hk⟩
      · simp [hk] at h

lemma lastMatch_eq_none (key : Ref → String) (l : List Ref) (k : String)
    (hl : ∀ r ∈ l, key r ≠ k) : lastMatch key l k = none := by
  cases hm : lastMatch key l k with
  | none => rfl
  | some a =>
    obtain ⟨ha, hk⟩ := lastMatch_mem key l k a hm
    exact absurd hk (hl a ha)

lemma lastMatch_self_of_nodup (key : Ref → String) (l : List Ref)
    (hnd : (l.map key).Nodup) (a : Ref) (ha : a ∈ l) :
    lastMatch key l (key a) = some a := by
  induction l with
  | nil => simp at ha
  | cons x rest ih =>
    simp only [List.map_cons, List.nodup_cons] at hnd
    rcases List.mem_cons.mp ha with h | h
    · subst h
      have hnone : lastMatch key rest (key a) = none := by
        apply lastMatch_eq_none
        intro r hr hkey
        exact hnd.1 (hkey ▸ List.mem_map_of_mem key hr)
      rw [lastMatch_cons, hnone]
      simp
    · rw [lastMatch_cons, ih hnd.2 h]
      simp

/-! Helper lemmas on the commit and rollback folds. -/

lemma commit_foldl_aux {σ : Type} (store : σ → Ref → σ)
    (l : List (String × Ref)) (rep : Repository) (s : σ) (log : List Ref) :
    l.foldl (fun acc p => (acc.1, store acc.2.1 p.2, acc.2.2 ++ [p.2]))
        (rep, s, log)
      = (rep, (l.map Prod.snd).foldl store s, log ++ l.map Prod.snd) := by
  induction l generalizing s log with
  | nil => simp
  | cons p rest ih =>
    rw [List.foldl_cons, ih]
    simp

lemma commit_eq {σ : Type} (store : σ → Ref → σ) (repo : Repository)
    (s : σ) :
    Repository.commit store repo s
      = (repo, repo.values.foldl store s, repo.values) := by
  unfold Repository.commit Repository.values
  rw [commit_foldl_aux]
  simp

lemma rollback_foldl_aux {σ : Type} (restore : σ → Heap → Ref → σ × Heap)
    (l : List (String × Ref)) (rep : Repository) (s : σ) (h : Heap)
    (log : List Ref) :
    l.foldl
        (fun acc p =>
          let res := restore acc.2.1 acc.2.2.1 p.2
          (acc.1, res.1, res.2, acc.2.2.2 ++ [p.2]))
        (rep, s, h, log)
      = (rep,
         ((l.map Prod.snd).foldl (fun q r => restore q.1 q.2 r) (s, h)).1,
         ((l.map Prod.snd).foldl (fun q r => restore q.1 q.2 r) (s, h)).2,
         log ++ l.map Prod.snd) := by
  induction l generalizing s h log with
  | nil => simp
  | cons p rest ih =>
    rw [List.foldl_cons, ih]
    simp

lemma rollback_eq {σ : Type} (restore : σ → Heap → Ref → σ × Heap)
    (repo : Repository) (s : σ) (h : Heap) :
    Repository.rollback restore repo s h
      = (repo,
         (repo.values.foldl (fun q r => restore q.1 q.2 r) (s, h)).1,
         (repo.values.foldl (fun q r => restore q.1 q.2 r) (s, h)).2,
         repo.values) := by
  unfold Repository.rollback Repository.values
  rw [rollback_foldl_aux]
  simp

lemma foldl_add_aggregates (h : Heap) (rs : List Ref)
    (m : List (String × Ref)) :
    (rs.foldl (Repository.add h) ⟨m⟩).aggregates
      = rs.foldl (fun m r => dictSet m ((h r).root.id) r) m := by
  induction rs generalizing m with
  | nil => rfl
  | cons r rest ih =>
    rw [List.foldl_cons, List.foldl_cons]
    exact ih _

lemma lookupKey_foldl {α : Type}
    (f : List (String × α) → Ref → List (String × α))
    (key : Ref → String) (val : Ref → α)
    (hf : ∀ m r, f m r = dictSet m (key r) (val r))
    (rs : List Ref) (m : List (String × α)) (k : String) :
    lookupKey (rs.foldl f m) k
      = (lastMatch key rs k).elim (lookupKey m k) (fun r => some (val r)) := by
  induction rs generalizing m with
  | nil => rfl
  | cons r rest ih =>
    rw [List.foldl_cons, hf, ih, lastMatch_cons]
    cases hm : lastMatch key rest k with
    | some a => simp
    | none =>
      by_cases hk : key r = k
      · simp [hk, lookupKey_dictSet]
      · simp [hk, lookupKey_dictSet]

lemma keys_foldl {α : Type}
    (f : List (String × α) → Ref → List (String × α))
    (key : Ref → String) (val : Ref → α)
    (hf : ∀ m r, f m r = dictSet m (key r) (val r))
    (rs : List Ref) (m : List (String × α)) :
    (rs.foldl f m).map Prod.fst
      = rs.foldl (fun acc r => addKey acc (key r)) (m.map Prod.fst) := by
  induction rs generalizing m with
  | nil => rfl
  | cons r rest ih =>
    rw [List.foldl_cons, hf, ih, List.foldl_cons, keys_dictSet]

lemma wf_foldl_add (h : Heap) (rs : List Ref) (m : List (String × Ref))
    (hm : ∀ p ∈ m, (h p.2).root.id = p.1) :
    ∀ p ∈ (rs.foldl (Repository.add h) ⟨m⟩).aggregates,
      (h p.2).root.id = p.1 := by
  induction rs generalizing m with
  | nil => exact hm
  | cons r rest ih =>
    rw [List.foldl_cons]
    apply ih
    intro p hp
    rcases mem_dictSet _ _ _ p hp with h1 | h1
    · subst h1
      rfl
    · exact hm p h1

lemma map_congr_mem {α β : Type} (l : List α) (f g : α → β)
    (h : ∀ a ∈ l, f a = g a) : l.map f = l.map g := by
  induction l with
  | nil => rfl
  | cons a rest ih =>
    simp only [List.map_cons]
    rw [h a (List.mem_cons_self a rest),
      ih (fun b hb => h b (List.mem_cons_of_mem a hb))]

lemma values_dictSet_absent {α : Type} (m : List (String × α)) (k : String)
    (v : α) (hk : k ∉ m.map Prod.fst) :
    (dictSet m k v).map Prod.snd = m.map Prod.snd ++ [v] := by
  unfold dictSet
  have hany : ¬m.any (fun p => p.1 = k) = true :=
    fun hx => hk ((any_keys m k).mp hx)
  rw [if_neg hany, List.map_append]
  rfl

lemma runBatchE_append {σ ε : Type} (act : σ → Ref → Except ε σ)
    (l₁ l₂ : List Ref) (s : σ) :
    runBatchE act (l₁ ++ l₂) s
      = match runBatchE act l₁ s with
        | Except.error e => Except.error e
        | Except.ok s' => runBatchE act l₂ s' := by
  induction l₁ generalizing s with
  | nil => rfl
  | cons r rest ih =>
    simp only [List.cons_append, runBatchE]
    cases act s r with
    | error e => rfl
    | ok s2 => exact ih s2

lemma runBatchE_restore_id (st : Storage) (l : List Ref) (h : Heap)
    (hl : ∀ r ∈ l, lookupKey st ((h r).root.id) = some (h r)) :
    runBatchE (restoreSnap st) l h = Except.ok h := by
  induction l with
  | nil => rfl
  | cons r rest ih =>
    have h1 := hl r (List.mem_cons_self r rest)
    have h2 : restoreSnap st h r = Except.ok h := by
      simp [restoreSnap, h1, Function.update_eq_self]
    have h3 : runBatchE (restoreSnap st) (r :: rest) h
        = runBatchE (restoreSnap st) rest h := by
      simp [runBatchE, h2]
    rw [h3]
    exact ih (fun q hq => hl q (List.mem_cons_of_mem r hq))

/-! Claim theorems. -/

/-- C1: for every identity-map state, a single commit call invokes store
exactly once on each tracked aggregate and on nothing else (the invocation
trace is exactly the list of tracked aggregates, in map order), a single
rollback call likewise invokes restore exactly once on each tracked
aggregate and on nothing else, and the number of adapter invocations per
call equals the map size. -/
theorem c1_exactly_once_per_call {σ τ : Type} (store : σ → Ref → σ)
    (restore : τ → Heap → Ref → τ × Heap) (repo : Repository) (s : σ)
    (t : τ) (h : Heap) :
    (Repository.commit store repo s).2.2 = repo.values ∧
    (Repository.rollback restore repo t h).2.2.2 = repo.values ∧
    (Repository.commit store repo s).2.2.length = repo.size ∧
    (Repository.rollback restore repo t h).2.2.2.length = repo.size ∧
    ∀ r : Ref, ((Repository.commit store repo s).2.2).count r
      = repo.values.count r := by
  refine ⟨?_, ?_, ?_, ?_, ?_⟩
  · rw [commit_eq]
  · rw [rollback_eq]
  · rw [commit_eq]
    simp [Repository.values, Repository.size]
  · rw [rollback_eq]
    simp [Repository.values, Repository.size]
  · intro r
    rw [commit_eq]

/-- C3: commit and rollback leave the identity map itself unchanged: across
any sequence of commit and rollback calls with any adapter, no entry is
removed and no key-to-reference binding is altered; the same entries stay
tracked until the coordinator is discarded. -/
theorem c3_identity_map_preserved {σ : Type} (store : σ → Ref → σ)
    (restore : σ → Heap → Ref → σ × Heap) (ops : List CROp)
    (repo : Repository) (s : σ) (h : Heap) :
    (runOps store restore ops (repo, s, h)).1 = repo := by
  induction ops generalizing repo s h with
  | nil => rfl
  | cons op rest ih =>
    cases op with
    | commit =>
      have h1 : (Repository.commit store repo s).1 = repo := by
        rw [commit_eq]
      simp only [runOps]
      rw [h1]
      exact ih repo _ h
    | rollback =>
      have h1 : (Repository.rollback restore repo s h).1 = repo := by
        rw [rollback_eq]
      simp only [runOps]
      rw [h1]
      exact ih repo _ _

/-- C8: a freshly constructed coordinator starts with an empty identity
map, and committing with zero tracked aggregates is a trivial no-op: store
is never invoked (the trace is empty) and the adapter state is returned
unchanged. -/
theorem c8_empty_commit_noop {σ : Type} (store : σ → Ref → σ) (s : σ) :
    Repository.init.aggregates = [] ∧
    Repository.commit store Repository.init s = (Repository.init, s, []) :=
  ⟨rfl, rfl⟩

/-- C2: for every sequence of add calls starting from a fresh coordinator,
the identity map holds at most one entry per identifier (the key list has
no duplicate), the entry for each identifier holds the most recently added
aggregate with that identifier (last-write-wins), and the map size never
exceeds the number of distinct identifiers added. -/
theorem c2_identity_map_last_write_wins (h : Heap) (rs : List Ref) :
    ((rs.foldl (Repository.add h) Repository.init).aggregates.map
        Prod.fst).Nodup ∧
    (∀ k : String,
      lookupKey (rs.foldl (Repository.add h) Repository.init).aggregates k
        = lastMatch (fun r => (h r).root.id) rs k) ∧
    (rs.foldl (Repository.add h) Repository.init).size
      ≤ (rs.map (fun r => (h r).root.id)).dedup.length := by
  have hagg : (rs.foldl (Repository.add h) Repository.init).aggregates
      = rs.foldl (fun m r => dictSet m ((h r).root.id) r) [] :=
    foldl_add_aggregates h rs []
  have hkeys : (rs.foldl (Repository.add h) Repository.init).aggregates.map
        Prod.fst
      = (rs.map (fun r => (h r).root.id)).foldl addKey [] := by
    rw [hagg,
      keys_foldl _ (fun r => (h r).root.id) (fun r => r) (fun _ _ => rfl)
        rs [],
      List.foldl_map]
    rfl
  refine ⟨?_, ?_, ?_⟩
  · rw [hkeys]
    exact foldl_addKey_nodup _ [] List.nodup_nil
  · intro k
    rw [hagg,
      lookupKey_foldl _ (fun r => (h r).root.id) (fun r => r)
        (fun _ _ => rfl) rs [] k]
    cases lastMatch (fun r => (h r).root.id) rs k <;> simp [lookupKey]
  · have hlen : (rs.foldl (Repository.add h) Repository.init).size
        = ((rs.map (fun r => (h r).root.id)).foldl addKey []).length := by
      rw [show (rs.foldl (Repository.add h) Repository.init).size
            = ((rs.foldl (Repository.add h)
                Repository.init).aggregates.map Prod.fst).length
          from (List.length_map _ _).symm, hkeys]
    rw [hlen]
    apply List.Subperm.length_le
    apply List.Nodup.subperm (foldl_addKey_nodup _ [] List.nodup_nil)
    intro x hx
    rcases (mem_foldl_addKey _ [] x).mp hx with h0 | h0
    · exact absurd h0 (List.not_mem_nil x)
    · exact List.mem_dedup.mpr h0

/-- C9: commit is deterministic in its traversal: two commit calls on
coordinators holding the same identity-map state invoke store on the same
aggregates in the same order, and that order is the insertion order of
identifiers into the map (first occurrence order of the add history, a
re-added identifier keeping its original position). -/
theorem c9_commit_order_deterministic {σ : Type} (store : σ → Ref → σ)
    (repo₁ repo₂ : Repository) (s₁ s₂ : σ)
    (hsame : repo₁.aggregates = repo₂.aggregates) (h : Heap)
    (rs : List Ref) :
    (Repository.commit store repo₁ s₁).2.2
      = (Repository.commit store repo₂ s₂).2.2 ∧
    ((Repository.commit store (rs.foldl (Repository.add h) Repository.init)
        s₁).2.2).map (fun r => (h r).root.id)
      = firstOccs (rs.map (fun r => (h r).root.id)) := by
  constructor
  · simp [commit_eq, Repository.values, hsame]
  · have htr : (Repository.commit store
          (rs.foldl (Repository.add h) Repository.init) s₁).2.2
        = (rs.foldl (Repository.add h) Repository.init).values := by
      rw [commit_eq]
    rw [htr]
    have hwf : ∀ p ∈ (rs.foldl (Repository.add h) Repository.init).aggregates,
        (h p.2).root.id = p.1 :=
      wf_foldl_add h rs []
        (fun p hp => absurd hp (List.not_mem_nil p))
    rw [Repository.values, List.map_map]
    have hcongr := map_congr_mem
      (rs.foldl (Repository.add h) Repository.init).aggregates
      ((fun r => (h r).root.id) ∘ Prod.snd) Prod.fst
      (fun p hp => hwf p hp)
    rw [hcongr]
    have hagg2 : (rs.foldl (Repository.add h) Repository.init).aggregates
        = rs.foldl (fun m r => dictSet m ((h r).root.id) r) [] :=
      foldl_add_aggregates h rs []
    rw [hagg2,
      keys_foldl _ (fun r => (h r).root.id) (fun r => r) (fun _ _ => rfl)
        rs []]
    rw [firstOccs, List.foldl_map]
    rfl

/-- C4 counterexample: the round-trip claim as stated fails on a reachable
identity-map state.  Aggregate 0 was added under identifier x, the caller
then renamed it to y (before the commit, so not between commit and
rollback), and aggregate 1 with identifier y was added.  The snapshot
adapter stores full current state and restore reproduces the last stored
state for an identifier, yet commit followed immediately by rollback
changes the observable state of tracked aggregate 0 from 5 to 7, because
both tracked aggregates were stored under the same current identifier y. -/
theorem c4_counterexample :
    repoXY.aggregates = [("x", 0), ("y", 1)] ∧
    (hMut 0).state = 5 ∧
    (Repository.rollbackE
        (restoreSnap (Repository.commitS hMut repoXY emptyStorage))
        repoXY hMut).map (fun hp => (hp 0).state)
      = Except.ok 7 := by
  refine ⟨rfl, rfl, rfl⟩

/-- C4 amended: provided the tracked aggregates carry pairwise distinct
current identifiers (which always holds when root.id is not mutated
between add and commit), commit followed immediately by rollback under the
snapshot adapter returns the heap completely unchanged, so every tracked
aggregate observably equals its state before the commit. -/
theorem c4_commit_rollback_round_trip (h : Heap) (repo : Repository)
    (st : Storage)
    (hids : (repo.values.map (fun r => (h r).root.id)).Nodup) :
    Repository.rollbackE (restoreSnap (Repository.commitS h repo st)) repo h
      = Except.ok h := by
  unfold Repository.rollbackE
  apply runBatchE_restore_id
  intro r hr
  have hcs : Repository.commitS h repo st
      = repo.values.foldl (storeSnap h) st := by
    unfold Repository.commitS
    rw [commit_eq]
  rw [hcs,
    lookupKey_foldl (storeSnap h) (fun q => (h q).root.id) (fun q => h q)
      (fun _ _ => rfl) repo.values st,
    lastMatch_self_of_nodup (fun q => (h q).root.id) repo.values hids r hr]
  rfl

/-- C4 witness: a concrete coordinator with two distinct identifiers on
which the amended round trip holds. -/
theorem c4_commit_rollback_round_trip_witness :
    ((repoAB.values.map (fun r => (hAB r).root.id)).Nodup) ∧
    Repository.rollbackE
        (restoreSnap (Repository.commitS hAB repoAB emptyStorage))
        repoAB hAB
      = Except.ok hAB :=
  ⟨by decide, c4_commit_rollback_round_trip hAB repoAB emptyStorage
    (by decide)⟩

/-- C6: restoring an aggregate whose identifier was never the subject of
any prior store (the storage was built from an empty storage by a sequence
of store calls, none on that identifier) surfaces NotFoundError to the
caller instead of returning successfully. -/
theorem c6_restore_never_stored (h : Heap) (rs : List Ref) (r : Ref)
    (hnever : ∀ q ∈ rs, (h q).root.id ≠ (h r).root.id) :
    restoreSnap (rs.foldl (storeSnap h) emptyStorage) h r
      = Except.error AdapterError.notFound := by
  have hl : lookupKey (rs.foldl (storeSnap h) emptyStorage)
      ((h r).root.id) = none := by
    rw [lookupKey_foldl (storeSnap h) (fun q => (h q).root.id)
        (fun q => h q) (fun _ _ => rfl) rs emptyStorage,
      lastMatch_eq_none _ _ _ hnever]
    rfl
  simp [restoreSnap, hl]

/-- C6 witness: after storing only the aggregate with identifier a,
restoring the aggregate with identifier b raises NotFoundError. -/
theorem c6_restore_never_stored_witness :
    (∀ q ∈ [(0 : Ref)], (hAB q).root.id ≠ (hAB 1).root.id) ∧
    restoreSnap ([0].foldl (storeSnap hAB) emptyStorage) hAB 1
      = Except.error AdapterError.notFound :=
  ⟨by decide, c6_restore_never_stored hAB [0] 1 (by decide)⟩

/-- C5 counterexample: with two tracked aggregates and a store adapter that
records every invocation and fails on aggregate 0, commit reports the very
first failure (its payload [0] is the full invocation log) instead of a
combined error after a full pass, and aggregate 1 - tracked, since the map
size is 2 - is never passed to store: the batch does not continue over the
remaining aggregates. -/
theorem c5_counterexample :
    Repository.commitE failingStore repoAB [] = Except.error [0] ∧
    (1 : Ref) ∉ [(0 : Ref)] ∧
    repoAB.size = 2 :=
  ⟨rfl, by decide, rfl⟩

/-- C5 amended: when store raises during commit, or restore raises during
rollback, the coordinator propagates that first failure immediately and
leaves all remaining tracked aggregates unvisited (the result does not
depend on the entries after the failing one); no combined error over the
full pass is produced. -/
theorem c5_abort_on_first_failure {σ ε : Type}
    (store : σ → Ref → Except ε σ) (restore : Heap → Ref → Except ε Heap)
    (m₁ m₂ : List (String × Ref)) (p : String × Ref) (s s' : σ)
    (e e' : ε) (h₀ h' : Heap)
    (h1 : Repository.commitE store ⟨m₁⟩ s = Except.ok s')
    (h2 : store s' p.2 = Except.error e)
    (h3 : Repository.rollbackE restore ⟨m₁⟩ h₀ = Except.ok h')
    (h4 : restore h' p.2 = Except.error e') :
    Repository.commitE store ⟨m₁ ++ p :: m₂⟩ s = Except.error e ∧
    Repository.rollbackE restore ⟨m₁ ++ p :: m₂⟩ h₀ = Except.error e' := by
  constructor
  · unfold Repository.commitE Repository.values at h1 ⊢
    simp only [List.map_append, List.map_cons]
    rw [runBatchE_append, h1]
    simp [runBatchE, h2]
  · unfold Repository.rollbackE Repository.values at h3 ⊢
    simp only [List.map_append, List.map_cons]
    rw [runBatchE_append, h3]
    simp [runBatchE, h4]

/-- C5 witness: with the logging store that fails on aggregate 0 and a
restore that fails on aggregate 0, a three-entry map whose middle entry is
the failing one yields exactly the first error, with the third entry
unvisited. -/
theorem c5_abort_on_first_failure_witness :
    Repository.commitE failingStore ⟨[("a", 2), ("b", 0), ("c", 1)]⟩ []
      = Except.error [2, 0] ∧
    Repository.rollbackE failingRestore ⟨[("a", 2), ("b", 0), ("c", 1)]⟩ hX
      = Except.error [0] :=
  c5_abort_on_first_failure failingStore failingRestore [("a", 2)]
    [("c", 1)] ("b", 0) [] [2] [2, 0] [0] hX hX rfl rfl rfl rfl

/-- C7 counterexample: add with an aggregate whose root.id is the empty
string does not reject it and does not leave the identity map unchanged:
the aggregate is silently stored under the empty key (there is no
MisuseError anywhere in the source). -/
theorem c7_counterexample :
    Repository.add hEmptyId Repository.init 0 ≠ Repository.init ∧
    lookupKey (Repository.add hEmptyId Repository.init 0).aggregates ""
      = some 0 := by
  exact ⟨by decide, rfl⟩

/-- C7 amended: add performs no identifier validation: even when
aggregate.root.id is the empty string the aggregate is inserted into the
identity map under that empty key (insert or replace), with no error. -/
theorem c7_add_no_validation (h : Heap) (repo : Repository) (r : Ref)
    (he : (h r).root.id = "") :
    lookupKey (Repository.add h repo r).aggregates "" = some r := by
  unfold Repository.add
  rw [he, lookupKey_dictSet]
  simp

/-- C7 witness: adding a concrete aggregate with empty identifier stores
it under the empty key. -/
theorem c7_add_no_validation_witness :
    (hEmptyId 0).root.id = "" ∧
    lookupKey (Repository.add hEmptyId Repository.init 0).aggregates ""
      = some 0 :=
  ⟨rfl, c7_add_no_validation hEmptyId Repository.init 0 rfl⟩

/-- C9 witness: two commits on the same concrete map state produce the
same trace, and the identifiers stored for the add history [0, 1, 0] come
out in first-occurrence order with the re-added identifier keeping its
original position. -/
theorem c9_commit_order_deterministic_witness :
    (Repository.commit (fun (u : Unit) _ => u) repoAB ()).2.2
      = (Repository.commit (fun (u : Unit) _ => u) repoAB ()).2.2 ∧
    ((Repository.commit (fun (u : Unit) _ => u)
        ([0, 1, 0].foldl (Repository.add hAB) Repository.init) ()).2.2).map
        (fun r => (hAB r).root.id)
      = firstOccs ([0, 1, 0].map (fun r => (hAB r).root.id)) :=
  c9_commit_order_deterministic (fun (u : Unit) _ => u) repoAB repoAB
    () () rfl hAB [0, 1, 0]

/-- C10: the tracking key is fixed when add is called (read once from
aggregate.root.id): the entry sits under that original key, commit visits
the aggregate exactly once, and after the caller mutates root.id to a
fresh identifier the existing entry is neither re-keyed nor removed, while
re-adding the same mutated instance appends a second, distinct entry under
the new identifier, leaving both entries bound to the same aggregate. -/
theorem c10_key_fixed_at_add {σ : Type} (store : σ → Ref → σ) (s : σ)
    (h : Heap) (repo : Repository) (r : Ref) (newId : String)
    (h1 : (h r).root.id ∉ repo.aggregates.map Prod.fst)
    (h2 : r ∉ repo.values)
    (h3 : newId ∉ (Repository.add h repo r).aggregates.map Prod.fst) :
    lookupKey (Repository.add h repo r).aggregates ((h r).root.id)
      = some r ∧
    ((Repository.commit store (Repository.add h repo r) s).2.2).count r
      = 1 ∧
    (Repository.add (Function.update h r ⟨⟨newId⟩, (h r).state⟩)
        (Repository.add h repo r) r).aggregates
      = (Repository.add h repo r).aggregates ++ [(newId, r)] ∧
    lookupKey (Repository.add (Function.update h r ⟨⟨newId⟩, (h r).state⟩)
        (Repository.add h repo r) r).aggregates ((h r).root.id)
      = some r ∧
    lookupKey (Repository.add (Function.update h r ⟨⟨newId⟩, (h r).state⟩)
        (Repository.add h repo r) r).aggregates newId
      = some r := by
  have hself : lookupKey (Repository.add h repo r).aggregates
      ((h r).root.id) = some r := by
    show lookupKey (dictSet repo.aggregates ((h r).root.id) r)
      ((h r).root.id) = some r
    rw [lookupKey_dictSet]
    simp
  have hvals : (Repository.add h repo r).values = repo.values ++ [r] := by
    show (dictSet repo.aggregates ((h r).root.id) r).map Prod.snd
      = repo.aggregates.map Prod.snd ++ [r]
    exact values_dictSet_absent repo.aggregates ((h r).root.id) r h1
  have hkeyNew : ((Function.update h r
      (⟨⟨newId⟩, (h r).state⟩ : Aggregate)) r).root.id = newId := by
    rw [Function.update_same]
  have hadd2 : (Repository.add (Function.update h r ⟨⟨newId⟩, (h r).state⟩)
      (Repository.add h repo r) r).aggregates
      = (Repository.add h repo r).aggregates ++ [(newId, r)] := by
    show dictSet (Repository.add h repo r).aggregates
        ((Function.update h r (⟨⟨newId⟩, (h r).state⟩ : Aggregate) r).root.id)
        r
      = (Repository.add h repo r).aggregates ++ [(newId, r)]
    rw [hkeyNew]
    unfold dictSet
    rw [if_neg (fun hx => h3 ((any_keys _ _).mp hx))]
  refine ⟨hself, ?_, hadd2, ?_, ?_⟩
  · have htr : (Repository.commit store (Repository.add h repo r) s).2.2
        = (Repository.add h repo r).values := by
      rw [commit_eq]
    rw [htr, hvals, List.count_append, List.count_eq_zero.mpr h2]
    simp
  · rw [hadd2, lookupKey_append, hself]
    rfl
  · rw [hadd2, lookupKey_append,
      lookupKey_eq_none_of_not_mem _ _ h3]
    simp [lookupKey]

/-- C10 witness: a concrete aggregate added under identifier x, then
renamed to y and re-added, yields the two entries x and y both bound to
aggregate 0, with commit visiting it exactly once in between. -/
theorem c10_key_fixed_at_add_witness :
    lookupKey (Repository.add hX Repository.init 0).aggregates
        ((hX 0).root.id) = some 0 ∧
    ((Repository.commit (fun (u : Unit) _ => u)
        (Repository.add hX Repository.init 0) ()).2.2).count 0 = 1 ∧
    (Repository.add (Function.update hX 0 ⟨⟨"y"⟩, (hX 0).state⟩)
        (Repository.add hX Repository.init 0) 0).aggregates
      = (Repository.add hX Repository.init 0).aggregates ++ [("y", 0)] ∧
    lookupKey (Repository.add (Function.update hX 0 ⟨⟨"y"⟩, (hX 0).state⟩)
        (Repository.add hX Repository.init 0) 0).aggregates
        ((hX 0).root.id) = some 0 ∧
    lookupKey (Repository.add (Function.update hX 0 ⟨⟨"y"⟩, (hX 0).state⟩)
        (Repository.add hX Repository.init 0) 0).aggregates "y"
      = some 0 :=
  c10_key_fixed_at_add (fun (u : Unit) _ => u) () hX Repository.init 0 "y"
    (by decide) (by decide) (by decide)
